import Mathlib

set_option maxHeartbeats 1600000
set_option maxRecDepth 8000

/- Verification development for the LongFormSTT recording pipeline.

   The definitions are a shallow embedding of two source files:
   * staticSTT_v_A3-B2-C4-A7-GR(A)_M5(A)_N14.1-Q7.10.py — the long-form
     chunked recorder (Variant A): the record_audio loop,
     split_current_chunk, partial_transcribe and
     stop_recording_and_transcribe.
   * SCRIPT/realtime_transcription_handler.py — the real-time handler
     (Variant B): the _is_speech VAD classifier and _transcription_loop.

   Machine integers are modelled as Nat; wall-clock durations are
   modelled in integer milliseconds (the Python code uses float seconds;
   all thresholds compared against are exact in both representations).
   Audio frame payloads are abstract type parameters, audio bytes are
   Nat lists.  External collaborators (the Whisper model, the WebRTC VAD
   classifier, the hallucination-regex sanitizer) enter as function
   parameters: the claims under study never depend on their internals. -/

namespace LongFormSTT

/-! ## Ordered result aggregation (Q7.10)

The Python dict partial_transcripts_dict is embedded as an association
list with unique keys; assignment d[k] = v overwrites an existing entry
for k and otherwise appends a new one, exactly like a Python dict. -/

/-- One assignment partial_transcripts_dict[k] = v. -/
def dictInsert (d : List (Nat × String)) (k : Nat) (v : String) : List (Nat × String) :=
  if d.any (fun p => p.1 == k) then
    d.map (fun p => if p.1 == k then (k, v) else p)
  else d ++ [(k, v)]

/-- The dict built by replaying a list of (sequence, text) assignments in
order, starting from the empty dict cleared by start_recording. -/
def buildDict (events : List (Nat × String)) : List (Nat × String) :=
  events.foldl (fun d e => dictInsert d e.1 e.2) []

/-- partial_transcripts_dict.keys() -/
def dictKeys (d : List (Nat × String)) : List Nat := d.map Prod.fst

/-- partial_transcripts_dict[k] (as an Option). -/
def dictLookup (d : List (Nat × String)) (k : Nat) : Option String :=
  (d.find? (fun p => p.1 == k)).map Prod.snd

/-- Embeds the tail of stop_recording_and_transcribe (lines 332-335):
if len(full_text) > 0 and full_text[0].isspace(): full_text = full_text[1:] -/
def stripLeadingSpace (s : String) : String :=
  if 0 < s.length ∧ s.front.isWhitespace then s.drop 1 else s

/-- Embeds stop_recording_and_transcribe lines 328-335: iterate over
sorted(partial_transcripts_dict.keys()), concatenate the entries, then
strip one leading whitespace character if present. -/
def drainOrdered (d : List (Nat × String)) : String :=
  stripLeadingSpace
    (String.join (((dictKeys d).insertionSort (· ≤ ·)).map (fun k => (dictLookup d k).getD "")))

theorem dictInsert_of_not_mem (d : List (Nat × String)) (k : Nat) (v : String)
    (h : k ∉ dictKeys d) : dictInsert d k v = d ++ [(k, v)] := by
  unfold dictInsert
  rw [if_neg]
  intro hany
  rcases List.any_eq_true.mp hany with ⟨p, hp, hpk⟩
  have hpk' : p.1 = k := by simpa using hpk
  exact h (by simpa [dictKeys, hpk'] using List.mem_map_of_mem Prod.fst hp)

theorem buildDict_go (l acc : List (Nat × String))
    (hdisj : ∀ k ∈ dictKeys l, k ∉ dictKeys acc)
    (hl : (dictKeys l).Nodup) :
    l.foldl (fun d e => dictInsert d e.1 e.2) acc = acc ++ l := by
  induction l generalizing acc with
  | nil => simp
  | cons e t ih =>
    have hek : e.1 ∉ dictKeys acc := hdisj e.1 (by simp [dictKeys])
    have hkeys : dictKeys (e :: t) = e.1 :: dictKeys t := rfl
    rw [hkeys] at hl
    have hl' : (dictKeys t).Nodup := hl.of_cons
    have henot : e.1 ∉ dictKeys t := by
      have := List.nodup_cons.mp hl
      exact this.1
    have step : dictInsert acc e.1 e.2 = acc ++ [(e.1, e.2)] :=
      dictInsert_of_not_mem acc e.1 e.2 hek
    have hdisj' : ∀ k ∈ dictKeys t, k ∉ dictKeys (acc ++ [(e.1, e.2)]) := by
      intro k hk
      have hk1 : k ∉ dictKeys acc := hdisj k (by rw [hkeys]; exact List.mem_cons_of_mem _ hk)
      have hk2 : k ≠ e.1 := fun h => henot (h ▸ hk)
      intro hmem
      have : k ∈ dictKeys acc ∨ k = e.1 := by simpa [dictKeys] using hmem
      rcases this with h | h
      · exact hk1 h
      · exact hk2 h
    calc (e :: t).foldl (fun d e => dictInsert d e.1 e.2) acc
        = t.foldl (fun d e => dictInsert d e.1 e.2) (acc ++ [(e.1, e.2)]) := by
          simp [List.foldl_cons, step]
      _ = (acc ++ [(e.1, e.2)]) ++ t := ih (acc ++ [(e.1, e.2)]) hdisj' hl'
      _ = acc ++ (e :: t) := by simp

/-- Replaying assignments whose keys are pairwise distinct reproduces the
event list itself as the dict. -/
theorem buildDict_of_nodup (l : List (Nat × String)) (hl : (dictKeys l).Nodup) :
    buildDict l = l := by
  have := buildDict_go l [] (by intro k _; simp [dictKeys]) hl
  simpa [buildDict] using this

/-- With pairwise-distinct keys, lookup returns the value stored with the
key, wherever the pair sits in the list. -/
theorem dictLookup_of_mem (l : List (Nat × String)) (k : Nat) (v : String)
    (hl : (dictKeys l).Nodup) (hmem : (k, v) ∈ l) :
    dictLookup l k = some v := by
  induction l with
  | nil => cases hmem
  | cons e t ih =>
    have hkeys : dictKeys (e :: t) = e.1 :: dictKeys t := rfl
    rw [hkeys] at hl
    rcases List.mem_cons.mp hmem with heq | htail
    · subst heq
      simp [dictLookup, List.find?]
    · have henot : e.1 ∉ dictKeys t := (List.nodup_cons.mp hl).1
      have hne : (e.1 == k) = false := by
        refine beq_eq_false_iff_ne.mpr ?_
        intro h
        exact henot (h ▸ (by simpa [dictKeys] using List.mem_map_of_mem Prod.fst htail))
      have ht : dictLookup t k = some v := ih (List.nodup_cons.mp hl).2 htail
      simpa [dictLookup, List.find?, hne] using ht

/-- Core drain lemma: if the recorded (sequence, text) events are any
permutation of one result per sequence number 1..N, the drained string is
the sequence-ordered concatenation, leading whitespace stripped. -/
theorem drain_of_perm (N : Nat) (f : Nat → String) (events : List (Nat × String))
    (hperm : events.Perm ((List.range' 1 N).map (fun i => (i, f i)))) :
    (∀ i ∈ List.range' 1 N, dictLookup (buildDict events) i = some (f i)) ∧
    drainOrdered (buildDict events) =
      stripLeadingSpace (String.join ((List.range' 1 N).map f)) := by
  have hkeys : (dictKeys events).Perm (List.range' 1 N) := by
    have h1 := hperm.map Prod.fst
    have h2 : ((List.range' 1 N).map (fun i => (i, f i))).map Prod.fst = List.range' 1 N := by
      rw [List.map_map]
      have hid : ∀ a ∈ List.range' 1 N, (Prod.fst ∘ fun i => (i, f i)) a = id a := by
        intro a _; rfl
      rw [List.map_congr_left hid, List.map_id]
    rw [h2] at h1
    exact h1
  have hnd : (dictKeys events).Nodup := hkeys.nodup_iff.mpr (List.nodup_range' 1 N)
  have hbd : buildDict events = events := buildDict_of_nodup events hnd
  have hlook : ∀ i ∈ List.range' 1 N, dictLookup (buildDict events) i = some (f i) := by
    intro i hi
    rw [hbd]
    refine dictLookup_of_mem events i (f i) hnd ?_
    exact hperm.mem_iff.mpr (List.mem_map_of_mem (fun i => (i, f i)) hi)
  refine ⟨hlook, ?_⟩
  have hsort : (dictKeys (buildDict events)).insertionSort (· ≤ ·) = List.range' 1 N := by
    rw [hbd]
    refine List.eq_of_perm_of_sorted (r := (· ≤ · : Nat → Nat → Prop))
      ((List.perm_insertionSort _ _).trans hkeys) ?_ ?_
    · exact List.sorted_insertionSort _ _
    · exact (List.pairwise_lt_range' 1 N).imp le_of_lt
  unfold drainOrdered
  rw [hsort]
  congr 1
  congr 1
  refine List.map_congr_left ?_
  intro i hi
  rw [hlook i hi]
  rfl

/-- C1: within one session the final string produced at
stop-and-transcribe is the concatenation of the recorded result texts in
ascending sequence order 1..N, with a single leading whitespace character
stripped from the combined result if present; since the right-hand side
depends only on the assignment of texts to sequence numbers, the output
is independent of the completion order in which the (sequence, text)
results reached the dict. -/
theorem drain_perm_eq_ordered_concat (N : Nat) (f : Nat → String)
    (events : List (Nat × String))
    (hperm : events.Perm ((List.range' 1 N).map (fun i => (i, f i)))) :
    drainOrdered (buildDict events) =
      stripLeadingSpace (String.join ((List.range' 1 N).map f)) :=
  (drain_of_perm N f events hperm).2

/-- Witness for C1: three chunks complete in order 3, 1, 2 with texts
"C", "A", "B"; the drained result is "ABC". -/
theorem drain_perm_eq_ordered_concat_witness :
    drainOrdered (buildDict [(3, "C"), (1, "A"), (2, "B")]) = "ABC" := by
  have h := drain_perm_eq_ordered_concat 3
      (fun i => if i = 1 then "A" else if i = 2 then "B" else "C")
      [(3, "C"), (1, "A"), (2, "B")] (by decide)
  rw [h]
  rfl

/-! ## Per-chunk transcription outcome (partial_transcribe, Q7.10)

The model.transcribe call is an external collaborator: its outcome is
`some t` (raw text returned) or `none` (any exception raised).  The
hallucination-regex substitution applied to a successful text is the
`sanitize` parameter. -/

/-- The text stored for a chunk: the sanitized model output on success,
"" on any exception. -/
def chunkResultText (sanitize : String → String) : Option String → String
  | some t => sanitize t
  | none => ""

/-- Embeds partial_transcribe (Q7.10 lines 266-280): whatever the outcome
of the model call, exactly one entry is written at the chunk's index —
the sanitized text on success, the empty string on failure. -/
def recordChunkResult (sanitize : String → String) (d : List (Nat × String))
    (idx : Nat) (outcome : Option String) : List (Nat × String) :=
  match outcome with
  | some t => dictInsert d idx (sanitize t)
  | none => dictInsert d idx ""

/-- One full session drain: every dispatched index completes once, in the
given completion order, each completion writing its entry exactly as
partial_transcribe does. -/
def processResults (sanitize : String → String) (out : Nat → Option String)
    (order : List Nat) : List (Nat × String) :=
  order.foldl (fun d i => recordChunkResult sanitize d i (out i)) []

theorem processResults_eq_buildDict (sanitize : String → String)
    (out : Nat → Option String) (order : List Nat) :
    processResults sanitize out order =
      buildDict (order.map (fun i => (i, chunkResultText sanitize (out i)))) := by
  suffices h : ∀ (l : List Nat) (d : List (Nat × String)),
      l.foldl (fun d i => recordChunkResult sanitize d i (out i)) d =
        (l.map (fun i => (i, chunkResultText sanitize (out i)))).foldl
          (fun d e => dictInsert d e.1 e.2) d by
    exact h order []
  intro l
  induction l with
  | nil => intro d; rfl
  | cons a t ih =>
    intro d
    simp only [List.foldl_cons, List.map_cons]
    rw [← ih]
    congr 1
    cases h : out a <;> simp [recordChunkResult, chunkResultText, h]

/-- C3: when a chunk's transcription fails, "" is recorded at its
sequence number, so every dispatched sequence number 1..N ends up with a
result entry (the final drain never waits on a missing key), the session
still completes, and the final transcript is the full ordered
concatenation with empty segments at the failed positions. -/
theorem failed_chunks_still_complete (N : Nat) (sanitize : String → String)
    (out : Nat → Option String) (order : List Nat)
    (hperm : order.Perm (List.range' 1 N)) :
    (∀ i ∈ List.range' 1 N,
        dictLookup (processResults sanitize out order) i =
          some (chunkResultText sanitize (out i))) ∧
    (∀ i ∈ List.range' 1 N, out i = none →
        dictLookup (processResults sanitize out order) i = some "") ∧
    drainOrdered (processResults sanitize out order) =
      stripLeadingSpace (String.join ((List.range' 1 N).map
        (fun i => chunkResultText sanitize (out i)))) := by
  rw [processResults_eq_buildDict]
  have hperm' : (order.map (fun i => (i, chunkResultText sanitize (out i)))).Perm
      ((List.range' 1 N).map (fun i => (i, chunkResultText sanitize (out i)))) :=
    hperm.map _
  have h := drain_of_perm N (fun i => chunkResultText sanitize (out i)) _ hperm'
  refine ⟨h.1, ?_, h.2⟩
  intro i hi hfail
  have h1 := h.1 i hi
  simp only [hfail, chunkResultText] at h1
  exact h1

/-- Witness for C3: chunks 1, 2, 3 complete in order 3, 1, 2; chunk 2's
transcription raises; the final transcript is "AC" — the failed position
contributes an empty segment and nothing blocks. -/
theorem failed_chunks_still_complete_witness :
    dictLookup (processResults id
        (fun i => if i = 1 then some " A" else if i = 3 then some "C" else none)
        [3, 1, 2]) 2 = some "" ∧
    drainOrdered (processResults id
        (fun i => if i = 1 then some " A" else if i = 3 then some "C" else none)
        [3, 1, 2]) = "AC" := by
  have h := failed_chunks_still_complete 3 id
      (fun i => if i = 1 then some " A" else if i = 3 then some "C" else none)
      [3, 1, 2] (by decide)
  refine ⟨h.2.1 2 (by decide) (by decide), ?_⟩
  rw [h.2.2]
  rfl

/-! ## Session sequence counter (Q7.10)

start_recording sets current_chunk_index = 1; split_current_chunk hands
the active chunk to a transcription thread tagged with the current index
and then increments the index by one; stop_recording_and_transcribe does
the same for the residual chunk, but only when its file holds more than
the 44 header bytes of an empty WAV. -/

structure SessionState where
  current_chunk_index : Nat
  dispatched : List Nat
  deriving DecidableEq

/-- State set up by start_recording (lines 123-131): counter at 1, no
chunk dispatched yet. -/
def sessionStart : SessionState :=
  { current_chunk_index := 1, dispatched := [] }

/-- Embeds split_current_chunk (lines 231-264): one transcription task is
started for the current index, then the index advances by exactly one. -/
def splitCurrentChunk (s : SessionState) : SessionState :=
  { current_chunk_index := s.current_chunk_index + 1,
    dispatched := s.dispatched ++ [s.current_chunk_index] }

/-- The session state after n flushes. -/
def flushes : Nat → SessionState
  | 0 => sessionStart
  | n + 1 => splitCurrentChunk (flushes n)

/-- Embeds the residual-chunk logic of stop_recording_and_transcribe
(lines 311-321): the buffered remainder becomes a final chunk, handed to
one more transcription task, exactly when its file size exceeds the 44
bytes of an empty WAV header. -/
def stopFinalize (s : SessionState) (residualSize : Nat) : SessionState :=
  if residualSize > 44 then splitCurrentChunk s else s

/-- C2: within one session the dispatched sequence numbers form the
contiguous range 1..n — the counter starts at 1, each flush dispatches
the current value exactly once and increments by one, so the sequence is
strictly increasing, duplicate-free and gapless, and after n flushes the
counter stands at n + 1. -/
theorem dispatched_contiguous (n : Nat) :
    (flushes n).dispatched = List.range' 1 n ∧
    (flushes n).current_chunk_index = n + 1 ∧
    List.Sorted (· < ·) (flushes n).dispatched ∧
    (flushes n).dispatched.Nodup := by
  have key : ∀ m : Nat, (flushes m).dispatched = List.range' 1 m ∧
      (flushes m).current_chunk_index = m + 1 := by
    intro m
    induction m with
    | zero => exact ⟨rfl, rfl⟩
    | succ k ih =>
      constructor
      · show (flushes k).dispatched ++ [(flushes k).current_chunk_index] = List.range' 1 (k + 1)
        rw [ih.1, ih.2, List.range'_1_concat, Nat.add_comm 1 k]
      · show (flushes k).current_chunk_index + 1 = k + 1 + 1
        rw [ih.2]
  refine ⟨(key n).1, (key n).2, ?_, ?_⟩
  · rw [(key n).1]
    exact List.pairwise_lt_range' 1 n
  · rw [(key n).1]
    exact List.nodup_range' 1 n

/-- C7: on explicit stop, the residual buffer is dispatched as the final
chunk if and only if it holds more than 44 bytes (the size of an empty
WAV header); at or below 44 bytes the session state is untouched — no
terminal chunk and no transcription task. -/
theorem residual_dispatched_iff (s : SessionState) (residualSize : Nat) :
    ((stopFinalize s residualSize).dispatched =
        s.dispatched ++ [s.current_chunk_index] ↔ 44 < residualSize) ∧
    (stopFinalize s residualSize).dispatched.length =
      s.dispatched.length + (if 44 < residualSize then 1 else 0) ∧
    (¬ 44 < residualSize → stopFinalize s residualSize = s) := by
  by_cases h : 44 < residualSize
  · refine ⟨⟨fun _ => h, fun _ => ?_⟩, ?_, fun hn => absurd h hn⟩
    · simp [stopFinalize, splitCurrentChunk, h]
    · simp [stopFinalize, splitCurrentChunk, h]
  · refine ⟨⟨fun he => ?_, fun hc => absurd hc h⟩, ?_, fun _ => by simp [stopFinalize, h]⟩
    · exfalso
      have : (stopFinalize s residualSize).dispatched = s.dispatched := by
        simp [stopFinalize, h]
      rw [this] at he
      have hlen := congrArg List.length he
      simp at hlen
    · simp [stopFinalize, h]

/-- Witness for C7: a residual of exactly 44 bytes (bare header) leaves
the session untouched, while a 100-byte residual dispatches chunk 3. -/
theorem residual_dispatched_iff_witness :
    stopFinalize ⟨3, [1, 2]⟩ 44 = ⟨3, [1, 2]⟩ ∧
    (stopFinalize ⟨3, [1, 2]⟩ 100).dispatched = [1, 2, 3] := by
  have h1 := residual_dispatched_iff ⟨3, [1, 2]⟩ 44
  have h2 := residual_dispatched_iff ⟨3, [1, 2]⟩ 100
  exact ⟨h1.2.2 (by decide), by simpa using h2.1.mpr (by decide)⟩

/-! ## Variant A segmentation loop (record_audio, Q7.10 lines 172-229)

One loop iteration reads one frame (CHUNK samples, a fixed frame
duration), computes the peak amplitude, arms the split flag once elapsed
time passes the soft deadline, and on a silent frame accumulates the
silence counter, appends the frame only while the counter is within the
trailing-silence limit, and flushes once the armed flag meets 100 ms of
accumulated silence.  Durations are integer milliseconds. -/

structure VarACfg where
  /-- THRESHOLD: peak amplitude at or above this is speech. -/
  threshold : Nat
  /-- SILENCE_LIMIT_SEC, in ms: silence retained in the buffer up to here. -/
  silenceLimitMs : Nat
  /-- CHUNK_SPLIT_INTERVAL, in ms: the soft chunk deadline. -/
  intervalMs : Nat
  /-- float(CHUNK) / RATE, in ms: the duration of one frame. -/
  frameMs : Nat
  deriving DecidableEq

structure VarAState (α : Type) where
  /-- now - record_start_time, in ms. -/
  elapsedMs : Nat
  /-- silence_duration, in ms. -/
  silenceMs : Nat
  /-- chunk_split_requested. -/
  splitRequested : Bool
  /-- next_split_time - record_start_time, in ms. -/
  nextSplitMs : Nat
  /-- every frame appended to the session's buffer, in order. -/
  kept : List α
  /-- how many chunks split_current_chunk has flushed. -/
  flushCount : Nat
  deriving DecidableEq

/-- State set up by start_recording: deadline one interval away. -/
def startA (cfg : VarACfg) : VarAState α :=
  { elapsedMs := 0, silenceMs := 0, splitRequested := false,
    nextSplitMs := cfg.intervalMs, kept := [], flushCount := 0 }

/-- One iteration of the record_audio while-loop on a frame with payload
d and peak amplitude p. -/
def stepA (cfg : VarACfg) (s : VarAState α) (frame : α × Nat) : VarAState α :=
  let elapsed := s.elapsedMs + cfg.frameMs
  let req := if !s.splitRequested && decide (s.nextSplitMs ≤ elapsed) then true
             else s.splitRequested
  if frame.2 < cfg.threshold then
    let sil := s.silenceMs + cfg.frameMs
    let kept := if sil ≤ cfg.silenceLimitMs then s.kept ++ [frame.1] else s.kept
    if req && decide (100 ≤ sil) then
      { elapsedMs := elapsed, silenceMs := sil, splitRequested := false,
        nextSplitMs := s.nextSplitMs + cfg.intervalMs, kept := kept,
        flushCount := s.flushCount + 1 }
    else
      { elapsedMs := elapsed, silenceMs := sil, splitRequested := req,
        nextSplitMs := s.nextSplitMs, kept := kept, flushCount := s.flushCount }
  else
    { elapsedMs := elapsed, silenceMs := 0, splitRequested := req,
      nextSplitMs := s.nextSplitMs, kept := s.kept ++ [frame.1],
      flushCount := s.flushCount }

/-- The record_audio loop over a finite frame trace. -/
def runA (cfg : VarACfg) (frames : List (α × Nat)) : VarAState α :=
  frames.foldl (stepA cfg) (startA cfg)

/-- The configuration of Q7.10 in ms, with the 64 ms frame rounded to a
100 ms frame grid so the spec's 60 / 59.9 / 0.2 scenario lands exactly on
frame boundaries (THRESHOLD 500, SILENCE_LIMIT_SEC 1.5 s,
CHUNK_SPLIT_INTERVAL 60 s). -/
def cfgA : VarACfg :=
  { threshold := 500, silenceLimitMs := 1500, intervalMs := 60000, frameMs := 100 }

/-- 59.9 time units of continuous speech followed by 0.2 units of
silence, on a 0.1-unit frame grid (599 speech frames at peak 1000, then
two silence frames at peak 0). -/
def traceDeadline : List (Unit × Nat) :=
  List.replicate 599 (((), 1000)) ++ [((), 0), ((), 0)]

theorem runA_speech_fill (k : Nat) (hk : k ≤ 599) :
    (List.replicate k (((), 1000)) : List (Unit × Nat)).foldl (stepA cfgA) (startA cfgA) =
      { elapsedMs := k * 100, silenceMs := 0, splitRequested := false,
        nextSplitMs := 60000, kept := List.replicate k (), flushCount := 0 } := by
  induction k with
  | zero => rfl
  | succ n ih =>
    rw [List.replicate_succ', List.foldl_append, ih (by omega)]
    have hlt : ¬ (60000 ≤ n * 100 + 100) := by omega
    simp [stepA, cfgA, hlt, List.replicate_succ']
    omega

/-- Evaluation of the deadline scenario: exactly one flush, and a
silence counter standing at 200 ms afterwards. -/
theorem runA_traceDeadline_eval :
    (runA cfgA traceDeadline).flushCount = 1 ∧
    (runA cfgA traceDeadline).silenceMs = 200 := by
  have h599 := runA_speech_fill 599 le_rfl
  have hrw : runA cfgA traceDeadline =
      ([(((), 0) : Unit × Nat), ((), 0)]).foldl (stepA cfgA)
        { elapsedMs := 599 * 100, silenceMs := 0, splitRequested := false,
          nextSplitMs := 60000, kept := List.replicate 599 (), flushCount := 0 } := by
    unfold runA traceDeadline
    rw [List.foldl_append, h599]
  rw [hrw]
  constructor <;> rfl

/-- C4 counterexample: with chunk_interval 60 units, 59.9 units of
continuous speech and then 0.2 units of silence, exactly one flush fires
(at the 60.0 mark, the first qualifying pause), but after the remaining
0.1-unit silence frame the running silence counter reads 200 ms — had the
flush reset the counter as the claim states, it could read at most
100 ms.  The record_audio code resets silence_duration only on speech
frames, never at a split. -/
theorem split_does_not_reset_silence_counter :
    (runA cfgA traceDeadline).flushCount = 1 ∧
    (runA cfgA traceDeadline).silenceMs = 200 :=
  runA_traceDeadline_eval

/-- C4 amended: reaching the chunk_interval deadline only arms the
split-requested flag; the flush happens at the first frame at which the
armed flag meets an accumulated continuous-silence counter of at least
100 ms, and it clears the flag and re-arms the deadline chunk_interval
later, but it leaves the silence counter untouched (only a speech frame
resets the counter).  In the 60-unit-interval scenario — 59.9 units of
speech then 0.2 units of silence — exactly one flush occurs. -/
theorem deadline_arms_flush_at_pause :
    (∀ (cfg : VarACfg) (s : VarAState Nat) (d p : Nat),
      ((stepA cfg s (d, p)).flushCount = s.flushCount + 1 ↔
        p < cfg.threshold ∧
          (s.splitRequested = true ∨ s.nextSplitMs ≤ s.elapsedMs + cfg.frameMs) ∧
          100 ≤ s.silenceMs + cfg.frameMs)) ∧
    (∀ (cfg : VarACfg) (s : VarAState Nat) (d p : Nat),
      (stepA cfg s (d, p)).flushCount = s.flushCount + 1 →
        (stepA cfg s (d, p)).splitRequested = false ∧
        (stepA cfg s (d, p)).nextSplitMs = s.nextSplitMs + cfg.intervalMs ∧
        (stepA cfg s (d, p)).silenceMs = s.silenceMs + cfg.frameMs) ∧
    (∀ (cfg : VarACfg) (s : VarAState Nat) (d p : Nat),
      (stepA cfg s (d, p)).flushCount ≠ s.flushCount + 1 →
        (stepA cfg s (d, p)).flushCount = s.flushCount ∧
        (stepA cfg s (d, p)).nextSplitMs = s.nextSplitMs) ∧
    (runA cfgA traceDeadline).flushCount = 1 := by
  refine ⟨?_, ?_, ?_, runA_traceDeadline_eval.1⟩
  · intro cfg s d p
    cases hsp : s.splitRequested <;>
      simp only [stepA, hsp] <;>
      split_ifs with h1 h2 h3 h4 h5 h6 <;>
      simp_all
  · intro cfg s d p
    cases hsp : s.splitRequested <;>
      simp only [stepA, hsp] <;>
      split_ifs with h1 h2 h3 h4 h5 h6 <;>
      simp_all
  · intro cfg s d p
    cases hsp : s.splitRequested <;>
      simp only [stepA, hsp] <;>
      split_ifs with h1 h2 h3 h4 h5 h6 <;>
      simp_all

/-- Witness for C4 (amended): at elapsed 59.9 s with the deadline at
60 s, a silent frame arms the flag and flushes in the same iteration;
the post-state has the flag cleared, the deadline at 120 s, and the
silence counter at 100 ms. -/
theorem deadline_arms_flush_at_pause_witness :
    (stepA cfgA ⟨59900, 0, false, 60000, [], 0⟩ (599, 0)).splitRequested = false ∧
    (stepA cfgA ⟨59900, 0, false, 60000, [], 0⟩ (599, 0)).nextSplitMs = 120000 ∧
    (stepA cfgA ⟨59900, 0, false, 60000, [], 0⟩ (599, 0)).silenceMs = 100 ∧
    (stepA cfgA ⟨59900, 0, false, 60000, [], 0⟩ (599, 0)).flushCount = 0 + 1 := by
  have h := deadline_arms_flush_at_pause
  have hflush : (stepA cfgA ⟨59900, 0, false, 60000, [], 0⟩ (599, 0)).flushCount = 0 + 1 :=
    (h.1 cfgA ⟨59900, 0, false, 60000, [], 0⟩ 599 0).mpr (by decide)
  have hpost := h.2.1 cfgA ⟨59900, 0, false, 60000, [], 0⟩ 599 0 hflush
  exact ⟨hpost.1, hpost.2.1, hpost.2.2, hflush⟩

/-- C6 counterexample: sixteen consecutive 100 ms silence frames
(payloads 1..16).  The fifteen frames within the 1.5 s trailing-silence
limit are appended to the buffer; the sixteenth, arriving after the
limit is exceeded, is dropped — contradicting the claim that such frames
are still appended. -/
theorem silence_beyond_limit_dropped :
    (runA cfgA ((List.range' 1 16).map (fun i => (i, 0)))).kept = List.range' 1 15 ∧
    16 ∉ (runA cfgA ((List.range' 1 16).map (fun i => (i, 0)))).kept := by
  constructor
  · rfl
  · decide

/-- C6 amended: a silence frame is appended to the active buffer exactly
while the accumulated continuous-silence duration stays within
max_trailing_silence; a silence frame arriving after that limit is
exceeded is dropped (the recorded chunk omits trailing silence beyond
the limit), and a speech frame is always appended. -/
theorem silence_retention_within_limit :
    (∀ (cfg : VarACfg) (s : VarAState Nat) (d p : Nat),
      (stepA cfg s (d, p)).kept =
        if p < cfg.threshold then
          (if s.silenceMs + cfg.frameMs ≤ cfg.silenceLimitMs then s.kept ++ [d]
           else s.kept)
        else s.kept ++ [d]) ∧
    (runA cfgA ((List.range' 1 16).map (fun i => (i, 0)))).kept = List.range' 1 15 := by
  refine ⟨?_, rfl⟩
  intro cfg s d p
  simp only [stepA]
  split_ifs with h1 h2 h3 h4 h5 h6 <;> simp_all

/-! ## WebRTC VAD classifier (_is_speech, realtime handler lines 144-176)

w = required_samples * 2 bytes is one 30 ms sub-frame (16-bit samples at
the configured rate).  The webrtcvad model is the external classifier
parameter; audio bytes are a Nat list.  The Python float comparison
speech_frames / len(frames) > 0.25 is exact for these magnitudes and is
rendered as 4 * speech_frames > len(frames). -/

/-- Python required_samples * 2 = int(rate * 30 / 1000) * 2 bytes. -/
def subframeBytes (rate : Nat) : Nat := 2 * (rate * 30 / 1000)

/-- Number of indexes produced by range(0, L - w, w) (empty when L ≤ w). -/
def sliceIdxCount (L w : Nat) : Nat := (L - w + (w - 1)) / w

/-- The byte windows chunk[i : i + w] for i in range(0, len(chunk) - w, w)
— the sub-frames the loop examines. -/
def framesToCheck (chunk : List Nat) (w : Nat) : List (List Nat) :=
  (List.range (sliceIdxCount chunk.length w)).map (fun j => (chunk.drop (j * w)).take w)

/-- All complete 30 ms sub-frames of the chunk — the partition the claim
describes. -/
def fullPartition (chunk : List Nat) (w : Nat) : List (List Nat) :=
  (List.range (chunk.length / w)).map (fun j => (chunk.drop (j * w)).take w)

/-- Embeds _is_speech: always Speech when the webrtcvad dependency is
unavailable; chunks shorter than one sub-frame are Silence; otherwise
Speech exactly when strictly more than 25% of the examined windows (full
windows below len(chunk) - w) are classified as speech. -/
def isSpeechRT (vadAvailable : Bool) (classify : List Nat → Bool) (rate : Nat)
    (chunk : List Nat) : Bool :=
  if !vadAvailable then true
  else
    let w := subframeBytes rate
    if chunk.length < w then false
    else
      let frames := framesToCheck chunk w
      let speechFrames := (frames.filter (fun f => f.length == w && classify f)).length
      decide (4 * speechFrames > frames.length)

/-- The classifier as the claim words it: partition the whole frame into
fixed 30 ms sub-frames, classify each sub-frame, Speech exactly when the
fraction of speech sub-frames exceeds 25%, and always Speech when the
dependency is unavailable.  Stated only for comparison with isSpeechRT. -/
def isSpeechClaim (vadAvailable : Bool) (classify : List Nat → Bool) (rate : Nat)
    (chunk : List Nat) : Bool :=
  if !vadAvailable then true
  else
    let frames := fullPartition chunk (subframeBytes rate)
    decide (4 * (frames.filter classify).length > frames.length)

theorem sliceIdxCount_mul (k w : Nat) (hw : 0 < w) :
    sliceIdxCount (k * w) w = k - 1 := by
  unfold sliceIdxCount
  cases k with
  | zero =>
    simp [Nat.div_eq_of_lt, hw]
  | succ n =>
    have h1 : (n + 1) * w - w + (w - 1) = (w - 1) + n * w := by
      have : (n + 1) * w = n * w + w := by ring
      omega
    rw [h1, Nat.add_mul_div_right _ _ hw, Nat.div_eq_of_lt (by omega)]
    omega

/-- For a chunk that is an exact multiple of the sub-frame size, the
examined windows are the full partition minus its final sub-frame. -/
theorem framesToCheck_eq_dropLast (chunk : List Nat) (w k : Nat) (hw : 0 < w)
    (hlen : chunk.length = k * w) :
    framesToCheck chunk w = (fullPartition chunk w).dropLast := by
  unfold framesToCheck fullPartition
  rw [hlen, sliceIdxCount_mul k w hw, Nat.mul_div_cancel k hw]
  cases k with
  | zero => simp
  | succ n =>
    rw [List.range_succ, List.map_append]
    simp [List.dropLast_concat]

theorem framesToCheck_length_eq (chunk : List Nat) (w k : Nat) (hw : 0 < w)
    (hlen : chunk.length = k * w) :
    ∀ f ∈ framesToCheck chunk w, f.length = w := by
  intro f hf
  unfold framesToCheck at hf
  rcases List.mem_map.mp hf with ⟨j, hj, rfl⟩
  have hjlt : j < k - 1 := by
    have := List.mem_range.mp hj
    rwa [hlen, sliceIdxCount_mul k w hw] at this
  simp only [List.length_take, List.length_drop, hlen]
  have : j * w + w ≤ k * w := by
    have hj1 : j + 1 ≤ k - 1 := hjlt
    calc j * w + w = (j + 1) * w := by ring
      _ ≤ (k - 1) * w := Nat.mul_le_mul_right w hj1
      _ ≤ k * w := Nat.mul_le_mul_right w (by omega)
  omega

/-- A 12-byte chunk = exactly two 30 ms sub-frames at rate 100 (sub-frame
w = 6 bytes): first sub-frame silent, second sub-frame speech. -/
def chunkTwoSub : List Nat := [0, 0, 0, 0, 0, 0, 1, 1, 1, 1, 1, 1]

/-- An 18-byte chunk = exactly three sub-frames at rate 100: speech,
silence, speech. -/
def chunkThreeSub : List Nat := [1, 1, 1, 1, 1, 1, 0, 0, 0, 0, 0, 0, 1, 1, 1, 1, 1, 1]

/-- A concrete stand-in for the external webrtcvad classifier: a
sub-frame counts as speech when its first byte is 1. -/
def headIsOne : List Nat → Bool := fun f => f.head? == some 1

/-- C8 counterexample: on a chunk of exactly two 30 ms sub-frames whose
second sub-frame is speech, the fraction of speech sub-frames over the
partition is 50% > 25%, so the claim's reading declares Speech — but the
code's loop bound range(0, len - w, w) skips the final sub-frame, counts
0 of 1 checked sub-frames as speech, and returns Silence. -/
theorem final_subframe_fraction_mismatch :
    isSpeechClaim true headIsOne 100 chunkTwoSub = true ∧
    isSpeechRT true headIsOne 100 chunkTwoSub = false := by
  constructor <;> rfl

/-- C8 amended: the classifier fails open to Speech whenever the VAD
dependency is unavailable; with the VAD available it returns Silence for
any chunk shorter than one 30 ms sub-frame, and on a chunk that is an
exact multiple of the sub-frame size it declares Speech exactly when
strictly more than 25% of the examined sub-frames — the full partition
minus its final sub-frame — are classified as speech. -/
theorem vad_checks_all_but_last_subframe :
    (∀ (classify : List Nat → Bool) (rate : Nat) (chunk : List Nat),
      isSpeechRT false classify rate chunk = true) ∧
    (∀ (classify : List Nat → Bool) (rate : Nat) (chunk : List Nat),
      chunk.length < subframeBytes rate →
      isSpeechRT true classify rate chunk = false) ∧
    (∀ (classify : List Nat → Bool) (rate : Nat) (chunk : List Nat) (k : Nat),
      0 < subframeBytes rate → chunk.length = k * subframeBytes rate →
      isSpeechRT true classify rate chunk =
        decide (4 * ((fullPartition chunk (subframeBytes rate)).dropLast.filter classify).length >
          ((fullPartition chunk (subframeBytes rate)).dropLast).length)) := by
  refine ⟨?_, ?_, ?_⟩
  · intro classify rate chunk
    rfl
  · intro classify rate chunk h
    simp [isSpeechRT, h]
  · intro classify rate chunk k hw hlen
    by_cases hk : chunk.length < subframeBytes rate
    · have hk0 : k = 0 := by
        by_contra h0
        have : subframeBytes rate ≤ k * subframeBytes rate :=
          Nat.le_mul_of_pos_left _ (Nat.pos_of_ne_zero h0)
        omega
      subst hk0
      simp only [Nat.zero_mul] at hlen
      have hnil : chunk = [] := List.eq_nil_of_length_eq_zero hlen
      subst hnil
      simp [isSpeechRT, fullPartition, subframeBytes] at hk ⊢
      omega
    · have hpart := framesToCheck_eq_dropLast chunk (subframeBytes rate) k hw hlen
      have hflen := framesToCheck_length_eq chunk (subframeBytes rate) k hw hlen
      have hfilter : (framesToCheck chunk (subframeBytes rate)).filter
          (fun f => f.length == subframeBytes rate && classify f) =
          (framesToCheck chunk (subframeBytes rate)).filter classify := by
        apply List.filter_congr
        intro f hf
        have hfl := hflen f hf
        simp [hfl]
      simp only [isSpeechRT, Bool.not_true, if_neg hk]
      rw [if_neg (by simp)]
      rw [hfilter, hpart]

/-- Witness for C8 (amended): at rate 100 (sub-frame 6 bytes), a 3-byte
chunk is Silence, and an 18-byte three-sub-frame chunk evaluates exactly
as the over-the-checked-sub-frames fraction does (here: 1 of 2 checked
sub-frames is speech, 4 * 1 > 2, so Speech). -/
theorem vad_checks_all_but_last_subframe_witness :
    isSpeechRT true headIsOne 100 [1, 1, 1] = false ∧
    isSpeechRT true headIsOne 100 chunkThreeSub =
      decide (4 * ((fullPartition chunkThreeSub (subframeBytes 100)).dropLast.filter headIsOne).length >
        ((fullPartition chunkThreeSub (subframeBytes 100)).dropLast).length) := by
  have h := vad_checks_all_but_last_subframe
  exact ⟨h.2.1 headIsOne 100 [1, 1, 1] (by decide),
    h.2.2 headIsOne 100 chunkThreeSub 3 (by decide) (by decide)⟩

/-- C10: with the VAD available, any chunk shorter than one 30 ms
sub-frame (2 bytes per sample times rate times 0.03) is Silence no
matter what the classifier would say of its bytes; the loop bound
range(0, len - w, w) stops one sub-frame short, so on exact-multiple
chunks the examined sub-frames are the partition minus its final
sub-frame; hence a chunk of exactly one sub-frame is also always
Silence. -/
theorem short_and_single_subframe_silence :
    (∀ (classify : List Nat → Bool) (rate : Nat) (chunk : List Nat),
      chunk.length < subframeBytes rate →
      isSpeechRT true classify rate chunk = false) ∧
    (∀ (rate k : Nat) (chunk : List Nat), 0 < subframeBytes rate →
      chunk.length = k * subframeBytes rate →
      framesToCheck chunk (subframeBytes rate) =
        (fullPartition chunk (subframeBytes rate)).dropLast) ∧
    (∀ (classify : List Nat → Bool) (rate : Nat) (chunk : List Nat),
      chunk.length = subframeBytes rate →
      isSpeechRT true classify rate chunk = false) := by
  refine ⟨?_, ?_, ?_⟩
  · intro classify rate chunk h
    simp [isSpeechRT, h]
  · intro rate k chunk hw hlen
    exact framesToCheck_eq_dropLast chunk (subframeBytes rate) k hw hlen
  · intro classify rate chunk hlen
    by_cases hlt : chunk.length < subframeBytes rate
    · simp [isSpeechRT, hlt]
    · have hcnt : sliceIdxCount chunk.length (subframeBytes rate) = 0 := by
        rw [hlen]
        unfold sliceIdxCount
        rcases Nat.eq_zero_or_pos (subframeBytes rate) with h0 | hpos
        · simp [h0]
        · rw [Nat.sub_self]
          rw [Nat.zero_add, Nat.div_eq_of_lt (by omega)]
      simp [isSpeechRT, hlt, framesToCheck, hcnt]

/-- Witness for C10: at rate 100, a 3-byte all-speech chunk is Silence,
the loop windows of the two-sub-frame chunk are its partition minus the
final sub-frame, and a 6-byte all-speech chunk (exactly one sub-frame)
is Silence. -/
theorem short_and_single_subframe_silence_witness :
    isSpeechRT true headIsOne 100 [1, 1, 1] = false ∧
    framesToCheck chunkTwoSub (subframeBytes 100) =
      (fullPartition chunkTwoSub (subframeBytes 100)).dropLast ∧
    isSpeechRT true headIsOne 100 [1, 1, 1, 1, 1, 1] = false := by
  have h := short_and_single_subframe_silence
  exact ⟨h.1 headIsOne 100 [1, 1, 1] (by decide),
    h.2.1 100 2 chunkTwoSub (by decide) (by decide),
    h.2.2 headIsOne 100 [1, 1, 1, 1, 1, 1] (by decide)⟩

/-! ## Real-time segmentation loop (_transcription_loop, lines 252-356)

Each iteration reads one frame at a wall-clock time (ms), classifies it
with _is_speech, and updates is_speech_active / silence_start_time /
current_segment / accumulated_speech.  When an active segment meets the
silence threshold the segment is folded into accumulated_speech, that
audio is handed to a transcription call (recorded in emitted), and a
context tail of at most 20 frames is retained.  Frame payloads are an
abstract type. -/

structure RTState (α : Type) where
  /-- is_speech_active -/
  speechActive : Bool
  /-- silence_start_time in ms; 0 is the "not set" sentinel exactly as in
  the code (real timestamps are positive). -/
  silenceStartMs : Nat
  /-- current_segment -/
  currentSegment : List α
  /-- accumulated_speech -/
  accumulated : List α
  /-- the audio handed to each transcription call, in call order. -/
  emitted : List (List α)
  deriving DecidableEq

/-- Loop-entry state (lines 255-257 and the reset in start). -/
def rtStart : RTState α :=
  { speechActive := false, silenceStartMs := 0, currentSegment := [],
    accumulated := [], emitted := [] }

/-- One iteration of the while-loop on a frame read at time now (ms) with
payload d and _is_speech result isSp. -/
def stepRT (thresholdMs : Nat) (s : RTState α) (now : Nat) (d : α) (isSp : Bool) :
    RTState α :=
  if isSp then
    if s.speechActive then { s with currentSegment := s.currentSegment ++ [d] }
    else { s with speechActive := true, silenceStartMs := 0,
                  currentSegment := s.currentSegment ++ [d] }
  else
    if s.speechActive then
      let start := if s.silenceStartMs = 0 then now else s.silenceStartMs
      let seg := s.currentSegment ++ [d]
      if thresholdMs ≤ now - start then
        if seg.isEmpty then
          { s with speechActive := false, silenceStartMs := start, currentSegment := seg }
        else
          let acc := s.accumulated ++ seg
          let keep := min 20 acc.length
          { speechActive := false, silenceStartMs := start, currentSegment := [],
            accumulated := acc.drop (acc.length - keep), emitted := s.emitted ++ [acc] }
      else { s with silenceStartMs := start, currentSegment := seg }
    else s

/-- The loop over a finite trace of (time, payload, is-speech) frames;
the trace ending models the stop signal. -/
def runRT (thresholdMs : Nat) (frames : List (Nat × α × Bool)) : RTState α :=
  frames.foldl (fun s f => stepRT thresholdMs s f.1 f.2.1 f.2.2) rtStart

/-- Embeds stop (lines 210-233): it clears the running flag, sets the
stop event, joins the thread and releases the audio device; it runs no
transcription and never flushes current_segment, so the transcribed
audios of a stopped session are exactly those the loop emitted. -/
def stopRT (s : RTState α) : List (List α) := s.emitted

/-- Failing input for C5: frames every 100 ms, payloads 1..12, threshold
500 ms.  Speech at t=100; one silence frame at t=200; speech again at
t=300..600 (a false pause of a single frame, far below the threshold);
silence from t=700 to t=1099 (a gap worth at most 499 ms — strictly less
than silence_threshold_ms); speech at t=1100. -/
def traceStale : List (Nat × Nat × Bool) :=
  [(100, 1, true), (200, 2, false), (300, 3, true), (400, 4, true),
   (500, 5, true), (600, 6, true), (700, 7, false), (800, 8, false),
   (900, 9, false), (1000, 10, false), (1099, 11, false), (1100, 12, true)]

/-- C5 at the failing input: because the speech frame at t=300 does not
clear silence_start_time (the code clears it only on the inactive-to-
active transition), the stale start t=200 makes the very first silence
frame of the second gap satisfy (700 - 200) ≥ 500, and the segment is
flushed to transcription at t=700 — inside a silence gap shorter than
silence_threshold_ms - 1.  Exactly one call is emitted, carrying frames
1..7. -/
theorem stale_silence_start_flushes_early :
    (runRT 500 traceStale).emitted = [[1, 2, 3, 4, 5, 6, 7]] ∧
    (runRT 500 traceStale).currentSegment = [12] := by
  constructor <;> rfl

/-- Every step either appends the frame to the current segment (leaving
accumulated and emitted alone), flushes accumulated ++ segment ++ frame
to a new emitted entry with the segment cleared and accumulated a suffix
of the flushed audio, or leaves the state unchanged. -/
theorem stepRT_shape (thresholdMs : Nat) (s : RTState α) (now : Nat) (d : α) (b : Bool) :
    (∃ sa st, stepRT thresholdMs s now d b =
      { speechActive := sa, silenceStartMs := st,
        currentSegment := s.currentSegment ++ [d], accumulated := s.accumulated,
        emitted := s.emitted }) ∨
    (∃ st, stepRT thresholdMs s now d b =
      { speechActive := false, silenceStartMs := st, currentSegment := [],
        accumulated := (s.accumulated ++ (s.currentSegment ++ [d])).drop
          ((s.accumulated ++ (s.currentSegment ++ [d])).length -
            min 20 (s.accumulated ++ (s.currentSegment ++ [d])).length),
        emitted := s.emitted ++ [s.accumulated ++ (s.currentSegment ++ [d])] }) ∨
    stepRT thresholdMs s now d b = s := by
  by_cases hb : b = true
  · by_cases hact : s.speechActive
    · exact Or.inl ⟨s.speechActive, s.silenceStartMs, by simp [stepRT, hb, hact]⟩
    · exact Or.inl ⟨true, 0, by simp [stepRT, hb, hact]⟩
  · by_cases hact : s.speechActive
    · by_cases hth : thresholdMs ≤ now - (if s.silenceStartMs = 0 then now else s.silenceStartMs)
      · refine Or.inr (Or.inl ⟨if s.silenceStartMs = 0 then now else s.silenceStartMs, ?_⟩)
        have hne : (s.currentSegment ++ [d]).isEmpty = false := by simp
        simp [stepRT, hb, hact, hth, hne]
      · exact Or.inl ⟨s.speechActive,
          if s.silenceStartMs = 0 then now else s.silenceStartMs,
          by simp [stepRT, hb, hact, hth]⟩
    · exact Or.inr (Or.inr (by simp [stepRT, hb, hact]))

/-- Provenance invariant threaded through the loop: with rest the
payloads still to be read, nothing already stored (emitted audio,
accumulated context, current segment) occurs in rest, and the current
segment is disjoint from every audio already handed to transcription. -/
def rtInv (s : RTState α) (rest : List α) : Prop :=
  (∀ e ∈ s.emitted, ∀ x ∈ e, x ∉ rest) ∧
  (∀ x ∈ s.accumulated, x ∉ rest) ∧
  (∀ x ∈ s.currentSegment, x ∉ rest) ∧
  (∀ x ∈ s.currentSegment, ∀ e ∈ s.emitted, x ∉ e)

theorem rtInv_step (thresholdMs : Nat) (s : RTState α) (now : Nat) (d : α) (b : Bool)
    (rest : List α) (hd : d ∉ rest) (hinv : rtInv s (d :: rest)) :
    rtInv (stepRT thresholdMs s now d b) rest := by
  obtain ⟨h1, h2, h3, h4⟩ := hinv
  rcases stepRT_shape thresholdMs s now d b with ⟨sa, st, heq⟩ | ⟨st, heq⟩ | heq
  · rw [heq]
    refine ⟨?_, ?_, ?_, ?_⟩
    · intro e he x hx hmem
      exact h1 e he x hx (List.mem_cons_of_mem _ hmem)
    · intro x hx hmem
      exact h2 x hx (List.mem_cons_of_mem _ hmem)
    · intro x hx
      rcases List.mem_append.mp hx with hx' | hx'
      · intro hmem
        exact h3 x hx' (List.mem_cons_of_mem _ hmem)
      · have hxd : x = d := by simpa using hx'
        subst hxd
        exact hd
    · intro x hx e he
      rcases List.mem_append.mp hx with hx' | hx'
      · exact h4 x hx' e he
      · have hxd : x = d := by simpa using hx'
        intro hmem
        exact h1 e he x hmem (by rw [hxd]; exact List.mem_cons_self d rest)
  · rw [heq]
    refine ⟨?_, ?_, ?_, ?_⟩
    · intro e he x hx hmem
      rcases List.mem_append.mp he with he' | he'
      · exact h1 e he' x hx (List.mem_cons_of_mem _ hmem)
      · have hee : e = s.accumulated ++ (s.currentSegment ++ [d]) := by simpa using he'
        subst hee
        rcases List.mem_append.mp hx with hx' | hx'
        · exact h2 x hx' (List.mem_cons_of_mem _ hmem)
        · rcases List.mem_append.mp hx' with hx2 | hx2
          · exact h3 x hx2 (List.mem_cons_of_mem _ hmem)
          · have hxd : x = d := by simpa using hx2
            subst hxd
            exact hd hmem
    · intro x hx hmem
      have hx' := List.mem_of_mem_drop hx
      rcases List.mem_append.mp hx' with h | h
      · exact h2 x h (List.mem_cons_of_mem _ hmem)
      · rcases List.mem_append.mp h with h' | h'
        · exact h3 x h' (List.mem_cons_of_mem _ hmem)
        · have hxd : x = d := by simpa using h'
          subst hxd
          exact hd hmem
    · intro x hx
      cases hx
    · intro x hx
      cases hx
  · rw [heq]
    refine ⟨?_, ?_, ?_, h4⟩
    · intro e he x hx hmem
      exact h1 e he x hx (List.mem_cons_of_mem _ hmem)
    · intro x hx hmem
      exact h2 x hx (List.mem_cons_of_mem _ hmem)
    · intro x hx hmem
      exact h3 x hx (List.mem_cons_of_mem _ hmem)

theorem rtInv_run (thresholdMs : Nat) (frames : List (Nat × α × Bool)) (s : RTState α)
    (hnd : (frames.map (fun f => f.2.1)).Nodup)
    (hinv : rtInv s (frames.map (fun f => f.2.1))) :
    rtInv (frames.foldl (fun s f => stepRT thresholdMs s f.1 f.2.1 f.2.2) s) [] := by
  induction frames generalizing s with
  | nil => simpa using hinv
  | cons f t ih =>
    have hmap : ((f :: t).map (fun g => g.2.1)) = f.2.1 :: t.map (fun g => g.2.1) := rfl
    rw [hmap] at hnd hinv
    apply ih
    · exact (List.nodup_cons.mp hnd).2
    · exact rtInv_step thresholdMs s f.1 f.2.1 f.2.2 _ (List.nodup_cons.mp hnd).1 hinv

/-- C9: in the real-time variant, stopping while a speech segment is
still being buffered discards that segment — stop itself runs no flush
(the transcribed audios after stop are exactly the loop's emissions),
and no payload of the buffered current segment occurs in any audio ever
handed to transcription; unlike Variant A there is no residual flush. -/
theorem stop_discards_buffered_segment (thresholdMs : Nat)
    (frames : List (Nat × Nat × Bool))
    (hnd : (frames.map (fun f => f.2.1)).Nodup)
    (_hact : (runRT thresholdMs frames).speechActive = true) :
    stopRT (runRT thresholdMs frames) = (runRT thresholdMs frames).emitted ∧
    ∀ x ∈ (runRT thresholdMs frames).currentSegment,
      ∀ e ∈ (runRT thresholdMs frames).emitted, x ∉ e := by
  have hbase : rtInv (rtStart : RTState Nat) (frames.map (fun f => f.2.1)) := by
    refine ⟨?_, ?_, ?_, ?_⟩ <;> simp [rtStart]
  have h := rtInv_run thresholdMs frames rtStart hnd hbase
  exact ⟨rfl, h.2.2.2⟩

/-- Frames for the C9 witness: one utterance flushed at t=700, then a
fresh segment ([4, 5]) still active when the trace ends. -/
def traceStopMid : List (Nat × Nat × Bool) :=
  [(100, 1, true), (200, 2, false), (700, 3, false), (800, 4, true), (900, 5, true)]

/-- Witness for C9: at stop the loop has emitted exactly [[1, 2, 3]] and
still buffers [4, 5]; the stopped session's transcriptions are the
emissions alone and the buffered frames appear in none of them. -/
theorem stop_discards_buffered_segment_witness :
    stopRT (runRT 500 traceStopMid) = (runRT 500 traceStopMid).emitted ∧
    ∀ x ∈ (runRT 500 traceStopMid).currentSegment,
      ∀ e ∈ (runRT 500 traceStopMid).emitted, x ∉ e :=
  stop_discards_buffered_segment 500 traceStopMid (by decide) (by decide)

end LongFormSTT
